import Mathlib

/-!
Verification of the ScholarManus agent core: the agent state machine and
step loop (`app/agent/base.py`, `app/agent/mcp.py`) and the tool-federation
layer (`app/tool/multi_mcp.py`), shallowly embedded in Lean 4.

Python's mutable agent object is modelled by explicit state passing on an
`Agent` record; the abstract `step` coroutine is a parameter; exceptions are
modelled with `Except`; the unbounded `while` loop is modelled with a fuel
parameter where `none` denotes a run that would not have terminated (under
the hypotheses of the theorems below the fuel is always sufficient).
-/

namespace ScholarManus

/-- Modelled from the spec: the agent state enumeration (`app/schema.py` is
not among the sources; spec section 4.1 lists the states
`IDLE, RUNNING, BLOCKED, FINISHED, ERROR`). -/
inductive AgentState
  | IDLE
  | RUNNING
  | BLOCKED
  | FINISHED
  | ERROR
deriving DecidableEq, Repr

/-- Modelled from the spec: message roles (`app/schema.py` is not among the
sources; the spec data model gives `role: user|system|assistant|tool`). -/
inductive Role
  | user
  | system
  | assistant
  | tool
deriving DecidableEq, Repr

/-- Modelled from the spec: a role-tagged message of the message log
(`app/schema.py` is not among the sources; the image payload and tool-call
identifier play no part in the claims and are omitted). -/
structure Message where
  role : Role
  content : String
deriving DecidableEq, Repr

/-- The mutable fields of `BaseAgent` (src/app/agent/base.py) that the
state machine reads or writes.  `memory.messages` is inlined as
`messages`; prompts other than `next_step_prompt` are never read by the
verified operations. -/
structure Agent where
  state : AgentState
  current_step : Nat
  max_steps : Nat
  block_reason : Option String
  user_input_required : Bool
  messages : List Message
  next_step_prompt : String
  duplicate_threshold : Nat
deriving DecidableEq, Repr

/-- Modelled from the spec: `Memory.add_message` (`app/schema.py` is not
among the sources; the spec says the message log is append-only: "no
deletion, only append"). -/
def add_message (mem : List Message) (m : Message) : List Message :=
  mem ++ [m]

/-- `BaseAgent.update_memory` (base.py lines 92-122): construct a message
for the given role and append it to memory. -/
def update_memory (a : Agent) (role : Role) (content : String) : Agent :=
  { a with messages := add_message a.messages ⟨role, content⟩ }

/-- `BaseAgent.block` (base.py lines 124-134). -/
def block (a : Agent) (reason : String) (require_user_input : Bool) : Agent :=
  { a with
    state := AgentState.BLOCKED
    block_reason := some reason
    user_input_required := require_user_input }

/-- `BaseAgent.unblock` (base.py lines 136-156).  `if user_input:` treats
`None` and the empty string as falsy. -/
def unblock (a : Agent) (user_input : Option String) : Agent :=
  if a.state ≠ AgentState.BLOCKED then a
  else
    let a1 := match user_input with
      | some s => if s ≠ "" then update_memory a Role.user s else a
      | none => a
    { a1 with
      state := AgentState.RUNNING
      block_reason := none
      user_input_required := false }

/-- `BaseAgent.is_stuck` (base.py lines 237-253): count messages before the
last one whose role is assistant and whose content equals the last
message's content; Python's `if not last_message.content` treats the empty
string as falsy. -/
def is_stuck (a : Agent) : Bool :=
  if a.messages.length < 2 then false
  else
    match a.messages.getLast? with
    | none => false
    | some last =>
      if last.content = "" then false
      else
        let duplicate_count := a.messages.dropLast.reverse.countP
          (fun m => decide (m.role = Role.assistant ∧ m.content = last.content))
        decide (a.duplicate_threshold ≤ duplicate_count)

/-- The constant `stuck_prompt` of `BaseAgent.handle_stuck_state`
(base.py lines 230-235); the Python source uses a backslash line
continuation, so the literal starts with the eight spaces of the second
line's indentation. -/
def stuck_prompt : String :=
  "        Observed duplicate responses. Consider new strategies and avoid repeating ineffective paths already attempted."

/-- `BaseAgent.handle_stuck_state` (base.py lines 230-235). -/
def handle_stuck_state (a : Agent) : Agent :=
  { a with next_step_prompt := stuck_prompt ++ "\n" ++ a.next_step_prompt }

/-- Rendering of an `Optional[str]` inside a Python f-string: `None` prints
as `"None"`. -/
def optStr : Option String → String
  | none => "None"
  | some s => s

/-- An assignment `self.state = s`. -/
def setState (a : Agent) (s : AgentState) : Agent :=
  { a with state := s }

/-- The condition of the `while` loop in `BaseAgent.run`
(base.py lines 185-189). -/
def loopCond (a : Agent) : Bool :=
  decide (a.current_step < a.max_steps) &&
    !(a.state = AgentState.FINISHED : Bool) &&
    !(a.state = AgentState.BLOCKED : Bool)

/-- A single `step` of a concrete agent: it may mutate the agent and return
a result string, or raise; a raise carries the agent as mutated up to the
raise point (in Python the mutations made by a failing step remain
visible on `self`). -/
def StepFn (ε : Type) : Type := Agent → Except (Agent × ε) (Agent × String)

/-- The body of the `while` loop of `BaseAgent.run` (base.py lines
185-206), iterated with explicit fuel; `none` means the fuel ran out while
the loop condition still held (the Python loop would have kept running). -/
def stepLoop {ε : Type} (step : StepFn ε) :
    Nat → Agent → List String → Option (Except (Agent × ε) (Agent × List String))
  | 0, a, rs => if loopCond a then none else some (.ok (a, rs))
  | fuel + 1, a, rs =>
    if loopCond a then
      match step { a with current_step := a.current_step + 1 } with
      | .error pe => some (.error pe)
      | .ok (a2, r) =>
        if a2.state = AgentState.BLOCKED then
          some (.ok (a2,
            rs ++ ["Step " ++ toString a2.current_step ++ ": " ++ r,
                   "Blocked: " ++ optStr a2.block_reason] ++
              (if a2.user_input_required then ["Waiting for user input to continue"] else [])))
        else
          stepLoop step fuel (if is_stuck a2 then handle_stuck_state a2 else a2)
            (rs ++ ["Step " ++ toString a2.current_step ++ ": " ++ r])
    else some (.ok (a, rs))

/-- The body of the `async with state_context(RUNNING)` block of
`BaseAgent.run` (base.py lines 184-215): the step loop followed by the
step-budget bookkeeping. -/
def runBody {ε : Type} (step : StepFn ε) (fuel : Nat) (a : Agent) (rs : List String) :
    Option (Except (Agent × ε) (Agent × List String)) :=
  match stepLoop step fuel a rs with
  | none => none
  | some (.error pe) => some (.error pe)
  | some (.ok (a1, rs1)) =>
    if a1.current_step ≥ a1.max_steps ∧ a1.state ≠ AgentState.BLOCKED then
      some (.ok ({ a1 with current_step := 0, state := AgentState.IDLE },
        rs1 ++ ["Terminated: Reached max steps (" ++ toString a1.max_steps ++ ")"]))
    else some (.ok (a1, rs1))

/-- The faults `BaseAgent.run` can propagate: the `RuntimeError` raised on
an invalid start state (base.py line 171), or an exception re-raised from a
step by `state_context` (base.py lines 86-88). -/
inductive RunFault (ε : Type)
  | invalidState (s : AgentState)
  | stepFault (e : ε)
deriving DecidableEq

/-- What a terminating call to `BaseAgent.run` leaves behind: the agent
object (Python callers keep their reference to the mutated `self`), the
returned summary or the propagated fault, and whether
`SANDBOX_CLIENT.cleanup()` was invoked (base.py lines 217-219). -/
structure RunResult (ε : Type) where
  agent : Agent
  outcome : Except (RunFault ε) String
  sandboxCleanup : Bool

/-- The prologue of `BaseAgent.run` (base.py lines 170-183) up to entering
`state_context(RUNNING)`: returns the `previous_state` that the context
manager captures (base.py line 82), the agent as it stands inside the
context, and the initial `results` list.  `if request:` treats the empty
string as falsy. -/
def runPre (a0 : Agent) (request : Option String) : AgentState × Agent × List String :=
  let a1 := if a0.state = AgentState.IDLE then
      (match request with
        | some r => if r ≠ "" then update_memory a0 Role.user r else a0
        | none => a0)
    else a0
  if a1.state = AgentState.BLOCKED then
    (AgentState.RUNNING, { a1 with state := AgentState.RUNNING },
      ["Resuming from blocked state: " ++ optStr a1.block_reason])
  else
    (a1.state, { a1 with state := AgentState.RUNNING }, [])

/-- `"\n".join(results) if results else "No steps executed"`
(base.py line 221). -/
def joinResults (rs : List String) : String :=
  if rs.isEmpty then "No steps executed" else String.intercalate "\n" rs

/-- `BaseAgent.run` (base.py lines 158-221).  On a fault inside the
context, `state_context` first sets the state to `ERROR` (base.py line 87)
and its `finally` then overwrites it with `previous_state` (line 90) before
the exception reaches the caller; on that path the cleanup check of line
218 is skipped.  On normal exit the `finally` also restores
`previous_state`, after which line 218 compares the (already reverted)
state against `BLOCKED` to decide whether to invoke
`SANDBOX_CLIENT.cleanup()`. -/
def run {ε : Type} (step : StepFn ε) (fuel : Nat) (a0 : Agent) (request : Option String) :
    Option (RunResult ε) :=
  if a0.state ≠ AgentState.IDLE ∧ a0.state ≠ AgentState.BLOCKED then
    some ⟨a0, .error (.invalidState a0.state), false⟩
  else
    let pre := runPre a0 request
    match runBody step fuel pre.2.1 pre.2.2 with
    | none => none
    | some (.error (ae, e)) =>
      let aerr := { ae with state := AgentState.ERROR }
      some ⟨{ aerr with state := pre.1 }, .error (.stepFault e), false⟩
    | some (.ok (a4, rs)) =>
      let afin := { a4 with state := pre.1 }
      some ⟨afin, .ok (joinResults rs), !(afin.state = AgentState.BLOCKED : Bool)⟩

/-- `MCPAgent.run` (mcp.py lines 330-338) wraps `BaseAgent.run` in a
`try/finally` whose `finally` always invokes `self.cleanup()` (which
disconnects the MCP session); the second flag records that invocation. -/
def mcpRun {ε : Type} (step : StepFn ε) (fuel : Nat) (a0 : Agent) (request : Option String) :
    Option (RunResult ε × Bool) :=
  match run step fuel a0 request with
  | none => none
  | some r => some (r, true)

/-! ## Tool federation layer (src/app/tool/multi_mcp.py) -/

/-- The part of an external `MCPClients` link that `MultiMCPClients` reads:
whether it has an active session and the names in its local `tool_map`
(the tool objects themselves never influence routing). -/
structure MCPClientModel where
  session : Bool
  tool_map : List String
deriving DecidableEq, Repr

/-- The state of a `MultiMCPClients` instance: the insertion-ordered
`clients` dict and the flattened `tool_map` (only its keys matter for
routing). -/
structure MultiMCP where
  clients : List (String × MCPClientModel)
  tool_map : List String
deriving DecidableEq, Repr

/-- `MultiMCPClients._update_tool_map` (multi_mcp.py lines 69-98), restricted
to the keys: for every client with an active session, every local tool name
prefixed with `"<client name>."`, in client insertion order. -/
def update_tool_map (clients : List (String × MCPClientModel)) : List String :=
  clients.foldl
    (fun acc p =>
      if p.2.session then acc ++ p.2.tool_map.map (fun t => p.1 ++ "." ++ t)
      else acc)
    []

/-- Python dict assignment `d[k] = v`: replaces the value in place (keeping
the key's position) when the key exists, otherwise appends. -/
def dictInsert {α : Type} (l : List (String × α)) (k : String) (v : α) :
    List (String × α) :=
  if (l.lookup k).isSome then l.map (fun p => if p.1 = k then (k, v) else p)
  else l ++ [(k, v)]

/-- Python's falsy test `if not x:` on an `Optional[str]`: true for `None`
and for the empty string. -/
def falsyStr : Option String → Bool
  | none => true
  | some s => decide (s = "")

/-- `MultiMCPClients.add_client` (multi_mcp.py lines 24-67).  The transport
mechanics are out of scope: the established connection is abstracted by the
`client` argument (the `MCPClients` value the connect calls would produce);
the parameter validation precedes the connect calls in the source, so an
error leaves `self.clients` untouched, which the `Except` return models. -/
def add_client (m : MultiMCP) (name connection_type : String)
    (server_url command : Option String) (client : MCPClientModel) :
    Except String MultiMCP :=
  if connection_type = "sse" then
    if falsyStr server_url then
      .error ("Server URL is required for SSE connection: " ++ name)
    else
      let clients := dictInsert m.clients name client
      .ok ⟨clients, update_tool_map clients⟩
  else if connection_type = "stdio" then
    if falsyStr command then
      .error ("Command is required for stdio connection: " ++ name)
    else
      let clients := dictInsert m.clients name client
      .ok ⟨clients, update_tool_map clients⟩
  else .error ("Unsupported connection type: " ++ connection_type)

/-- `name.split(".", 1)`: the part before the first `'.'` and the remainder
after it (only used when the name contains a dot). -/
def splitFirstDot (name : String) : String × String :=
  ((name.data.takeWhile (fun c => c ≠ '.')).asString,
   ((name.data.dropWhile (fun c => c ≠ '.')).drop 1).asString)

/-- Where `MultiMCPClients.execute_tool` sends a call: to a specific
client, through the flattened map (`super().execute`), or nowhere
(`ToolResult(error=...)` returned as a value — no exception is raised on
this path). -/
inductive ExecOutcome
  | dispatched (clientName toolName : String)
  | flattened (name : String)
  | notFound (error : String)
deriving DecidableEq, Repr

/-- `MultiMCPClients.execute_tool` (multi_mcp.py lines 100-133): prefixed
dispatch when the prefix is a registered client, otherwise the first client
(in registration order) whose local `tool_map` contains the name, otherwise
the flattened map, otherwise a "Tool not found" result value. -/
def execute_tool (m : MultiMCP) (name : String) : ExecOutcome :=
  let fallback :=
    match m.clients.find? (fun p => p.2.tool_map.contains name) with
    | some p => ExecOutcome.dispatched p.1 name
    | none =>
      if m.tool_map.contains name then ExecOutcome.flattened name
      else ExecOutcome.notFound ("Tool not found: " ++ name)
  if name.data.contains '.' then
    let pair := splitFirstDot name
    if (m.clients.lookup pair.1).isSome then ExecOutcome.dispatched pair.1 pair.2
    else fallback
  else fallback

/-! ## Schema reconciler (src/app/agent/mcp.py, `_refresh_tools`) -/

/-- A Python dict comprehension `{tool.name: tool.inputSchema for ...}`:
later duplicates overwrite earlier ones. -/
def buildDict (live : List (String × String)) : List (String × String) :=
  live.foldl (fun d p => dictInsert d p.1 p.2) []

/-- The outputs of one `MCPAgent._refresh_tools` pass: the returned
`(added_tools, removed_tools)`, the logged `changed_tools`, the new
`self.tool_schemas`, and the message log after the notifications. -/
structure RefreshResult where
  added : List String
  removed : List String
  changed : List String
  tool_schemas : List (String × String)
  messages : List Message
deriving DecidableEq, Repr

/-- `MCPAgent._refresh_tools` (mcp.py lines 94-139).  `live` is the
`{name: inputSchema}` listing retrieved from the server (schemas abstracted
as strings, compared structurally), `tool_schemas` the cached map, `mem`
the message log.  Set differences and the intersection are computed over
the key sets; the cache is replaced wholesale by the live map. -/
def refresh_tools (session : Bool) (live : List (String × String))
    (tool_schemas : List (String × String)) (mem : List Message) : RefreshResult :=
  if !session then ⟨[], [], [], tool_schemas, mem⟩
  else
    let current_tools := buildDict live
    let current_names := current_tools.map Prod.fst
    let previous_names := tool_schemas.map Prod.fst
    let added_tools := current_names.filter (fun n => !previous_names.contains n)
    let removed_tools := previous_names.filter (fun n => !current_names.contains n)
    let changed_tools := current_names.filter (fun n =>
      previous_names.contains n &&
        !decide (current_tools.lookup n = tool_schemas.lookup n))
    let mem1 :=
      if added_tools.isEmpty then mem
      else add_message mem
        ⟨Role.system, "New tools available: " ++ String.intercalate ", " added_tools⟩
    let mem2 :=
      if removed_tools.isEmpty then mem1
      else add_message mem1
        ⟨Role.system, "Tools no longer available: " ++ String.intercalate ", " removed_tools⟩
    ⟨added_tools, removed_tools, changed_tools, current_tools, mem2⟩

/-! ## Blocking classifier (src/app/agent/mcp.py, `_needs_user_input`)

The control flow of `_needs_user_input` is embedded exactly; the three
regex pattern families are data fed through `re.search`, an external
library call, so the main theorem quantifies over arbitrary matchers and
the concrete matchers below translate each regex of the source into an
executable search. -/

/-- Python `str.strip()`: remove leading and trailing whitespace. -/
def pyStrip (s : String) : String :=
  ((s.data.dropWhile Char.isWhitespace).reverse.dropWhile Char.isWhitespace).reverse.asString

/-- The sentence-terminal punctuation class `[.!?。！？]` of
`_needs_user_input` (mcp.py line 166). -/
def isTerminalPunct (c : Char) : Bool :=
  c == '.' || c == '!' || c == '?' || c == '。' || c == '！' || c == '？'

/-- Helper for `splitSentences`: cut after every terminal-punctuation
character (accumulator holds the current piece reversed). -/
def splitSentencesAux : List Char → List Char → List String
  | [], acc => [acc.reverse.asString]
  | c :: cs, acc =>
    if isTerminalPunct c then
      ((c :: acc).reverse.asString) :: splitSentencesAux cs []
    else splitSentencesAux cs (c :: acc)

/-- `re.split(r"(?<=[.!?。！？])\s*", message.strip())` (mcp.py line 166):
split after every terminal punctuation mark.  The `\s*` the regex consumes
at each split point is left attached here; the caller strips every piece
right afterwards (line 167), which erases the difference. -/
def splitSentences (s : String) : List String :=
  splitSentencesAux s.data []

/-- Helper for `findQuestionSpans`, with fuel (each round consumes at least
one character, so `length` fuel is always enough). -/
def findSpansAux : Nat → List Char → List String
  | 0, _ => []
  | _ + 1, [] => []
  | fuel + 1, l =>
    let notTerm := fun c => !isTerminalPunct c
    let seg := l.takeWhile notTerm
    match l.dropWhile notTerm with
    | [] => []
    | c :: rest =>
      if c == '?' || c == '？' then
        ((seg ++ c :: rest.takeWhile notTerm).asString)
          :: findSpansAux fuel (rest.dropWhile notTerm)
      else findSpansAux fuel rest

/-- `re.findall(r"[^.!?。！？]*[?？][^.!?。！？]*", message)` (mcp.py line
250): the non-overlapping spans around each question mark, delimited by
terminal punctuation. -/
def findQuestionSpans (s : String) : List String :=
  findSpansAux s.data.length s.data

/-- `re.IGNORECASE` case folding: Python lowercases the haystack and the
patterns below are written lowercase already (ASCII-only folding; none of
the source patterns contain non-ASCII letters with case). -/
def lowerData (s : String) : List Char :=
  s.data.map Char.toLower

/-- Substring test: `re.search` of a literal pattern. -/
def containsSub (l : List Char) (pat : String) : Bool :=
  (List.range l.length.succ).any (fun i => pat.data.isPrefixOf (l.drop i))

/-- `any(re.search(p, s, re.IGNORECASE) for p in pats)` where every `p` is
a literal alternation, flattened into the list of its literal branches. -/
def containsAnyLower (s : String) (pats : List String) : Bool :=
  pats.any (fun p => containsSub (lowerData s) p)

/-- Try a continuation at every start position of the (case-folded)
haystack — the search part of `re.search`. -/
def searchAt (s : String) (f : List Char → Bool) : Bool :=
  (List.range (lowerData s).length.succ).any (fun i => f ((lowerData s).drop i))

/-- Match one literal out of `alts` at the head of `r`, then continue. -/
def litThen (alts : List String) (r : List Char) (keep : List Char → Bool) : Bool :=
  alts.any (fun b => b.data.isPrefixOf r && keep (r.drop b.length))

/-- Match `\s+` at the head of `r`, then continue (whitespace and word
characters are disjoint, so greedy maximal-run matching is exact). -/
def wsThen (r : List Char) (keep : List Char → Bool) : Bool :=
  decide ((r.takeWhile Char.isWhitespace).length ≠ 0) &&
    keep (r.drop (r.takeWhile Char.isWhitespace).length)

/-- `\w` — ASCII approximation of Python's Unicode-aware word class; the
theorems below only evaluate it on inputs where the two agree. -/
def isWordChar (c : Char) : Bool :=
  c.isAlphanum || c == '_'

/-- Match `\w+` at the head of `r`, then continue. -/
def wordThen (r : List Char) (keep : List Char → Bool) : Bool :=
  decide ((r.takeWhile isWordChar).length ≠ 0) &&
    keep (r.drop (r.takeWhile isWordChar).length)

/-- Match `(?:\s+\w+)?\s+` at the head of `r`, then continue. -/
def wsOptWordThen (r : List Char) (keep : List Char → Bool) : Bool :=
  wsThen r keep || wsThen r (fun r1 => wordThen r1 (fun r2 => wsThen r2 keep))

/-- `re.search` of `A\s+B` for literal alternations `A`, `B`. -/
def matchSeqAB (s : String) (asL bsL : List String) : Bool :=
  searchAt s (fun suf =>
    litThen asL suf (fun r => wsThen r (fun r2 => litThen bsL r2 (fun _ => true))))

/-- `re.search` of `A(?:\s+\w+)?\s+B`. -/
def matchSeqAOptB (s : String) (asL bsL : List String) : Bool :=
  searchAt s (fun suf =>
    litThen asL suf (fun r => wsOptWordThen r (fun r2 => litThen bsL r2 (fun _ => true))))

/-- `re.search` of `A(?:\s+\w+)?\s+B(?:\s+\w+)?\s+C`. -/
def matchSeqAOptBOptC (s : String) (asL bsL csL : List String) : Bool :=
  searchAt s (fun suf =>
    litThen asL suf (fun r => wsOptWordThen r (fun r2 =>
      litThen bsL r2 (fun r3 => wsOptWordThen r3 (fun r4 =>
        litThen csL r4 (fun _ => true))))))

/-- `re.search` of `A.\x7b0,k\x7dB` (the gap `.` does not cross a newline). -/
def matchGap (s : String) (asL bsL : List String) (k : Nat) : Bool :=
  searchAt s (fun suf =>
    litThen asL suf (fun r =>
      (List.range (k + 1)).any (fun g =>
        (r.take g).all (fun c => !(c == '\n')) &&
          litThen bsL (r.drop g) (fun _ => true))))

/-- `re.search` of `A.*[?？]` (the gap does not cross a newline). -/
def matchKeyThenQ (s : String) (asL : List String) : Bool :=
  searchAt s (fun suf =>
    litThen asL suf (fun r =>
      (List.range r.length.succ).any (fun g =>
        (r.take g).all (fun c => !(c == '\n')) &&
          ((r.drop g).head? == some '?' || (r.drop g).head? == some '？'))))

/-- The `instruction_patterns` list (mcp.py lines 175-183), each regex
translated: pure alternations become literal lists (nested alternations
expanded to their cross product), `(?:.\x7b0,10\x7d)?` becomes a bounded gap,
and the English patterns use the `\s+`/`\w+` matchers above. -/
def has_instruction (s : String) : Bool :=
  containsAnyLower s ["请问", "请提供", "请输入", "请告诉", "请说明", "请描述",
    "请指定", "请选择", "请确认", "请回答", "请解释", "请分享", "请上传"] ||
  containsAnyLower s ["提供一下", "提供下", "输入一下", "输入下", "告诉一下", "告诉下",
    "说明一下", "说明下", "描述一下", "描述下", "指定一下", "指定下",
    "选择一下", "选择下", "确认一下", "确认下"] ||
  containsAnyLower s ["能告诉", "能提供", "能说明", "能描述", "能解释",
    "可以告诉", "可以提供", "可以说明", "可以描述", "可以解释",
    "可否告诉", "可否提供", "可否说明", "可否描述", "可否解释",
    "请告诉", "请提供", "请说明", "请描述", "请解释"] ||
  matchGap s ["有什么", "有何", "有哪些"] ["问题", "疑问", "不明白的"] 10 ||
  matchSeqAOptB s ["please", "kindly", "could you", "can you", "would you"]
    ["provide", "tell", "share", "explain", "describe", "confirm", "specify",
     "select", "input"] ||
  matchSeqAOptBOptC s ["need", "require", "want"] ["your", "the", "some", "more"]
    ["input", "information", "details", "clarification", "confirmation"] ||
  containsAnyLower s ["how can i help"]

/-- The `question_patterns` list (mcp.py lines 186-195); the trailing
optional group of `(?:能否|可否|是否)(?:\s+\w+)?` never affects whether a
match exists, so that pattern reduces to its alternation. -/
def has_question_pattern (s : String) : Bool :=
  containsAnyLower s ["什么", "如何", "怎么", "怎样", "为什么", "为何", "哪些",
    "哪个", "哪里", "何时", "何地", "谁", "是否"] ||
  containsAnyLower s ["能否", "可否", "是否"] ||
  matchGap s ["有什么", "有哪些"] ["可以", "能够", "需要"] 15 ||
  containsAnyLower s ["请问"] ||
  containsAnyLower s ["what", "how", "why", "when", "where", "which", "who",
    "whom", "whose"] ||
  matchSeqAB s ["do", "does", "did", "is", "are", "was", "were", "have", "has",
    "had", "can", "could", "will", "would", "should", "shall", "may", "might"]
    ["you", "i", "we", "they", "he", "she", "it"]

/-- The `rhetorical_patterns` list (mcp.py lines 198-203); the source's
first alternation repeats `不是吗`, kept here as in the source. -/
def is_rhetorical (s : String) : Bool :=
  containsAnyLower s ["不是吗", "对吧", "对不对", "是不是", "是吧", "不是吗",
    "难道不", "难道", "不是么"] ||
  containsAnyLower s ["wouldn\x27t you agree", "isn\x27t it", "doesn\x27t it",
    "don\x27t you think", "right?"] ||
  matchKeyThenQ s ["想象一下", "假设", "假如", "如果"] ||
  matchKeyThenQ s ["imagine", "suppose", "what if", "assuming"]

/-- `MCPAgent._needs_user_input` (mcp.py lines 141-264), parametrized over
the three per-sentence matchers (`re.search` against the instruction,
question and rhetorical pattern families).  Every return statement of the
source yields `False` as the boolean — only the reason string varies. -/
def needs_user_input (instr quest rhet : String → Bool) (message : String) :
    Bool × String :=
  if message = "" ∨ pyStrip message = "" then (false, "")
  else
    let has_question_mark := message.data.contains '?' || message.data.contains '？'
    let sentences :=
      ((splitSentences (pyStrip message)).map pyStrip).filter (fun s => decide (s ≠ ""))
    if sentences.isEmpty then (false, "")
    else
      let user_input_sentences := sentences.filter (fun s =>
        if s.length < 3 then false
        else
          let is_question := s.data.contains '?' || s.data.contains '？'
          instr s || (is_question && !rhet s) || (quest s && !rhet s))
      let with_fallback :=
        if has_question_mark && user_input_sentences.isEmpty then
          (findQuestionSpans message).foldl
            (fun acc part =>
              if 3 < (pyStrip part).length ∧ ¬(rhet part = true) then
                acc ++ [pyStrip part]
              else acc)
            user_input_sentences
        else user_input_sentences
      if with_fallback.isEmpty then (false, "")
      else (false, String.intercalate " " with_fallback)

/-! ## Concrete instances used to evaluate the theorems -/

/-- A freshly constructed agent (all fields at their `BaseAgent` defaults)
with the given step budget. -/
def mkFresh (maxSteps : Nat) : Agent :=
  ⟨AgentState.IDLE, 0, maxSteps, none, false, [], "", 2⟩

/-- A step that only leaves the state `RUNNING` and reports "ok". -/
def stepRunning : StepFn Unit :=
  fun a => .ok ({ a with state := AgentState.RUNNING }, "ok")

/-- A step that immediately calls `self.block("need info", True)`. -/
def stepBlocking : StepFn Unit :=
  fun a => .ok (block a "need info" true, "ask")

/-- A step that raises without mutating the agent. -/
def stepRaising : StepFn Unit :=
  fun a => .error (a, ())

/-- An agent whose log holds the assistant messages A, B, A, A of the
spec's stuck-detector example. -/
def stuckAgent : Agent :=
  ⟨AgentState.IDLE, 0, 3, none, false,
   [⟨Role.assistant, "A"⟩, ⟨Role.assistant, "B"⟩, ⟨Role.assistant, "A"⟩,
    ⟨Role.assistant, "A"⟩], "", 2⟩

/-- The same agent one message earlier (A, B, A). -/
def stuckAgent3 : Agent :=
  ⟨AgentState.IDLE, 0, 3, none, false,
   [⟨Role.assistant, "A"⟩, ⟨Role.assistant, "B"⟩, ⟨Role.assistant, "A"⟩], "", 2⟩

/-- The spec's federation example: links "web" and "docs", registered in
that order, both exposing a local `search` tool. -/
def webDocs : MultiMCP :=
  ⟨[("web", ⟨true, ["search"]⟩), ("docs", ⟨true, ["search"]⟩)],
   update_tool_map [("web", ⟨true, ["search"]⟩), ("docs", ⟨true, ["search"]⟩)]⟩

/-- A federation with the single link "web". -/
def webOnly : MultiMCP :=
  ⟨[("web", ⟨true, ["search"]⟩)], update_tool_map [("web", ⟨true, ["search"]⟩)]⟩

/-- A connected client exposing a local `crawl` tool. -/
def crawlClient : MCPClientModel :=
  ⟨true, ["crawl"]⟩

/-! ## Helper lemmas -/

theorem takeWhile_append_all {α : Type} (p : α → Bool) (l1 l2 : List α)
    (h : ∀ x ∈ l1, p x = true) :
    (l1 ++ l2).takeWhile p = l1 ++ l2.takeWhile p := by
  induction l1 with
  | nil => simp
  | cons a t ih =>
    simp only [List.cons_append, List.takeWhile_cons, h a (by simp), if_true]
    rw [ih (fun x hx => h x (by simp [hx]))]

theorem dropWhile_append_all {α : Type} (p : α → Bool) (l1 l2 : List α)
    (h : ∀ x ∈ l1, p x = true) :
    (l1 ++ l2).dropWhile p = l2.dropWhile p := by
  induction l1 with
  | nil => simp
  | cons a t ih =>
    simp only [List.cons_append, List.dropWhile_cons, h a (by simp)]
    exact ih (fun x hx => h x (by simp [hx]))

theorem lookup_isSome_iff {α : Type} (k : String) (l : List (String × α)) :
    (l.lookup k).isSome = true ↔ k ∈ l.map Prod.fst := by
  induction l with
  | nil => simp [List.lookup]
  | cons h t ih =>
    simp only [List.lookup, List.map_cons, List.mem_cons]
    by_cases hk : k = h.1
    · simp [hk]
    · have hb : (k == h.1) = false := by simp [hk]
      simp [hb, ih, hk]

theorem asString_data (s : String) : s.data.asString = s := by
  cases s
  rfl

/-! ## C10: stuck detection -/

/-- C10: whenever the most recent message in the log is a non-empty
assistant message (and the duplicate threshold is positive, as its default
2 is), `is_stuck` returns true iff the number of earlier assistant
messages whose content is exactly string-equal to it is at least
`duplicate_threshold`.  No normalization is applied: the comparison is
exact equality of contents. -/
theorem is_stuck_duplicate_threshold (a : Agent) (ms : List Message) (last : Message)
    (hmsg : a.messages = ms ++ [last])
    (hrole : last.role = Role.assistant)
    (hcontent : last.content ≠ "")
    (hthr : 1 ≤ a.duplicate_threshold) :
    is_stuck a = true ↔
      a.duplicate_threshold ≤
        (ms.filter (fun m =>
          decide (m.role = Role.assistant ∧ m.content = last.content))).length := by
  by_cases hms : ms = []
  · subst hms
    have hfalse : is_stuck a = false := by
      unfold is_stuck
      rw [hmsg]
      simp
    rw [hfalse]
    simp only [List.filter_nil, List.length_nil]
    constructor
    · intro h
      cases h
    · intro h
      omega
  · have hlen : ¬((ms ++ [last]).length < 2) := by
      have := List.length_pos.mpr hms
      simp only [List.length_append, List.length_cons, List.length_nil]
      omega
    unfold is_stuck
    rw [hmsg]
    rw [if_neg hlen]
    have hlast : (ms ++ [last]).getLast? = some last := by simp
    rw [hlast]
    simp only [if_neg hcontent]
    have hdrop : (ms ++ [last]).dropLast = ms := by simp
    rw [hdrop]
    simp [List.countP_eq_length_filter]

/-- Evaluation of C10 on the spec's example: assistant messages A, B, A, A
make the detector fire (two prior exact matches of "A"), while A, B, A do
not (one prior match). -/
theorem is_stuck_duplicate_threshold_witness :
    is_stuck stuckAgent = true ∧ is_stuck stuckAgent3 = false := by
  constructor
  · exact (is_stuck_duplicate_threshold stuckAgent
      [⟨Role.assistant, "A"⟩, ⟨Role.assistant, "B"⟩, ⟨Role.assistant, "A"⟩]
      ⟨Role.assistant, "A"⟩ rfl rfl (by decide) (by decide)).mpr (by decide)
  · have h := is_stuck_duplicate_threshold stuckAgent3
      [⟨Role.assistant, "A"⟩, ⟨Role.assistant, "B"⟩]
      ⟨Role.assistant, "A"⟩ rfl rfl (by decide) (by decide)
    refine Bool.eq_false_iff.mpr (fun ht => ?_)
    exact absurd (h.mp ht) (by decide)

/-! ## The step loop under steps that never block, finish or raise -/

theorem stepLoop_zero_exit {ε : Type} (step : StepFn ε) (a : Agent) (rs : List String)
    (hcond : loopCond a = false) :
    stepLoop step 0 a rs = some (.ok (a, rs)) := by
  simp [stepLoop, hcond]

theorem stepLoop_succ_exit {ε : Type} (step : StepFn ε) (f : Nat) (a : Agent)
    (rs : List String) (hcond : loopCond a = false) :
    stepLoop step (f + 1) a rs = some (.ok (a, rs)) := by
  simp [stepLoop, hcond]

theorem stepLoop_succ_ok {ε : Type} (step : StepFn ε) (f : Nat) (a : Agent)
    (rs : List String) (hcond : loopCond a = true) (a2 : Agent) (r : String)
    (hstep : step { a with current_step := a.current_step + 1 } = .ok (a2, r))
    (h2B : a2.state ≠ AgentState.BLOCKED) :
    stepLoop step (f + 1) a rs =
      stepLoop step f (if is_stuck a2 then handle_stuck_state a2 else a2)
        (rs ++ ["Step " ++ toString a2.current_step ++ ": " ++ r]) := by
  conv_lhs => unfold stepLoop
  rw [if_pos hcond, hstep]
  dsimp only
  rw [if_neg h2B]

theorem stuck_branch_fields (a2 : Agent) :
    (if is_stuck a2 then handle_stuck_state a2 else a2).state = a2.state ∧
    (if is_stuck a2 then handle_stuck_state a2 else a2).current_step = a2.current_step ∧
    (if is_stuck a2 then handle_stuck_state a2 else a2).max_steps = a2.max_steps := by
  by_cases h : is_stuck a2 <;> simp [h, handle_stuck_state]

theorem loopCond_false_of_exhausted (a : Agent)
    (h : a.max_steps ≤ a.current_step) : loopCond a = false := by
  unfold loopCond
  simp [Nat.not_lt.mpr h]

theorem le_of_loopCond_false (a : Agent) (hB : a.state ≠ AgentState.BLOCKED)
    (hF : a.state ≠ AgentState.FINISHED) (h : loopCond a = false) :
    a.max_steps ≤ a.current_step := by
  unfold loopCond at h
  simp [hB, hF] at h
  omega

/-- Invariant of the step loop when every step succeeds, never blocks or
finishes, and leaves the step counters alone: the loop exits normally with
the counter at `max_steps`, having appended one "Step i: result" record per
iteration. -/
theorem stepLoop_no_block {ε : Type} (step : StepFn ε)
    (hok : ∀ a, ∃ a2 r, step a = .ok (a2, r))
    (hnb : ∀ a a2 r, step a = .ok (a2, r) →
      a2.state ≠ AgentState.BLOCKED ∧ a2.state ≠ AgentState.FINISHED)
    (hctr : ∀ a a2 r, step a = .ok (a2, r) →
      a2.current_step = a.current_step ∧ a2.max_steps = a.max_steps) :
    ∀ (fuel : Nat) (a : Agent) (rs : List String),
      a.state ≠ AgentState.BLOCKED → a.state ≠ AgentState.FINISHED →
      a.max_steps - a.current_step ≤ fuel →
      ∃ a4 rs2, stepLoop step fuel a rs = some (.ok (a4, rs ++ rs2)) ∧
        a4.max_steps = a.max_steps ∧
        a4.current_step = max a.current_step a.max_steps ∧
        a4.state ≠ AgentState.BLOCKED ∧
        rs2.length = a.max_steps - a.current_step ∧
        ∀ i, i < rs2.length → ∃ r, rs2.get? i =
          some ("Step " ++ toString (a.current_step + i + 1) ++ ": " ++ r) := by
  intro fuel
  induction fuel with
  | zero =>
    intro a rs hB hF hfuel
    have hexh : a.max_steps ≤ a.current_step := by omega
    refine ⟨a, [], ?_, rfl, ?_, hB, ?_, ?_⟩
    · simpa using stepLoop_zero_exit step a rs (loopCond_false_of_exhausted a hexh)
    · exact (Nat.max_eq_left hexh).symm
    · simp only [List.length_nil]
      omega
    · intro i hi
      simp at hi
  | succ f ih =>
    intro a rs hB hF hfuel
    by_cases hcond : loopCond a = true
    · have hlt : a.current_step < a.max_steps := by
        unfold loopCond at hcond
        simp at hcond
        exact hcond.1.1
      obtain ⟨a2, r, hstep⟩ := hok { a with current_step := a.current_step + 1 }
      obtain ⟨h2B, h2F⟩ := hnb _ _ _ hstep
      obtain ⟨h2c, h2m⟩ := hctr _ _ _ hstep
      simp only at h2c h2m
      obtain ⟨h3s, h3c, h3m⟩ := stuck_branch_fields a2
      have hfuel3 : (if is_stuck a2 then handle_stuck_state a2 else a2).max_steps -
          (if is_stuck a2 then handle_stuck_state a2 else a2).current_step ≤ f := by
        rw [h3m, h3c, h2m, h2c]
        omega
      obtain ⟨a4, rs2, hloop, h4m, h4c, h4B, hlen, hidx⟩ :=
        ih (if is_stuck a2 then handle_stuck_state a2 else a2)
          (rs ++ ["Step " ++ toString a2.current_step ++ ": " ++ r])
          (by rw [h3s]; exact h2B) (by rw [h3s]; exact h2F) hfuel3
      refine ⟨a4, ("Step " ++ toString a2.current_step ++ ": " ++ r) :: rs2, ?_, ?_, ?_,
        h4B, ?_, ?_⟩
      · rw [stepLoop_succ_ok step f a rs hcond a2 r hstep h2B, hloop]
        simp
      · rw [h4m, h3m, h2m]
      · rw [h4c, h3c, h3m, h2c, h2m]
        omega
      · rw [List.length_cons, hlen, h3m, h3c, h2m, h2c]
        omega
      · intro i hi
        cases i with
        | zero =>
          refine ⟨r, ?_⟩
          rw [h2c]
          rfl
        | succ j =>
          simp only [List.length_cons] at hi
          obtain ⟨r2, hr2⟩ := hidx j (by omega)
          refine ⟨r2, ?_⟩
          simp only [List.get?_cons_succ]
          rw [hr2, h3c, h2c]
          have harg : a.current_step + 1 + j + 1 = a.current_step + (j + 1) + 1 := by
            omega
          rw [harg]
    · have hcondF : loopCond a = false := by
        cases h : loopCond a
        · rfl
        · exact absurd h hcond
      have hexh := le_of_loopCond_false a hB hF hcondF
      refine ⟨a, [], ?_, rfl, ?_, hB, ?_, ?_⟩
      · simpa using stepLoop_succ_exit step f a rs hcondF
      · exact (Nat.max_eq_left hexh).symm
      · simp only [List.length_nil]
        omega
      · intro i hi
        simp at hi

/-! ## Facts about the run prologue -/

theorem runPre_idle (a0 : Agent) (req : Option String) (h : a0.state = AgentState.IDLE) :
    (runPre a0 req).1 = AgentState.IDLE ∧
    (runPre a0 req).2.1.state = AgentState.RUNNING ∧
    (runPre a0 req).2.1.current_step = a0.current_step ∧
    (runPre a0 req).2.1.max_steps = a0.max_steps ∧
    (runPre a0 req).2.2 = [] := by
  have hnotB : ¬a0.state = AgentState.BLOCKED := by
    rw [h]
    intro hc
    cases hc
  unfold runPre
  rw [if_pos h]
  cases req with
  | none =>
    dsimp only
    rw [if_neg hnotB]
    exact ⟨h, rfl, rfl, rfl, rfl⟩
  | some r =>
    dsimp only
    by_cases hr : r ≠ ""
    · rw [if_pos hr]
      have hnotB2 : ¬(update_memory a0 Role.user r).state = AgentState.BLOCKED := hnotB
      rw [if_neg hnotB2]
      exact ⟨h, rfl, rfl, rfl, rfl⟩
    · rw [if_neg hr]
      rw [if_neg hnotB]
      exact ⟨h, rfl, rfl, rfl, rfl⟩

theorem runPre_blocked (a0 : Agent) (req : Option String)
    (h : a0.state = AgentState.BLOCKED) :
    (runPre a0 req).1 = AgentState.RUNNING ∧
    (runPre a0 req).2.1.state = AgentState.RUNNING := by
  have hnotI : ¬a0.state = AgentState.IDLE := by
    rw [h]
    intro hc
    cases hc
  unfold runPre
  rw [if_neg hnotI]
  rw [if_pos h]
  exact ⟨rfl, rfl⟩

theorem runPre_fst_ne_blocked (a0 : Agent) (req : Option String) :
    (runPre a0 req).1 ≠ AgentState.BLOCKED := by
  by_cases h : a0.state = AgentState.IDLE
  · rw [(runPre_idle a0 req h).1]
    intro hc
    cases hc
  · by_cases hb : a0.state = AgentState.BLOCKED
    · rw [(runPre_blocked a0 req hb).1]
      intro hc
      cases hc
    · unfold runPre
      rw [if_neg h]
      rw [if_neg hb]
      exact hb

theorem runPre_fst_ne_error (a0 : Agent) (req : Option String)
    (h : a0.state = AgentState.IDLE ∨ a0.state = AgentState.BLOCKED) :
    (runPre a0 req).1 ≠ AgentState.ERROR := by
  cases h with
  | inl h =>
    rw [(runPre_idle a0 req h).1]
    intro hc
    cases hc
  | inr h =>
    rw [(runPre_blocked a0 req h).1]
    intro hc
    cases hc

/-! ## C1: step-budget exhaustion -/

/-- C1: for an agent started from `IDLE` with `current_step = 0` and
`max_steps = N`, driven by a step that always succeeds, never moves the
state to `BLOCKED` or `FINISHED`, and leaves the step counters alone,
`run` terminates after exactly N iterations (N "Step i: ..." records), the
agent ends in `IDLE` with `current_step = 0`, and the newline-joined
summary ends with the max-steps termination record. -/
theorem run_max_steps_termination {ε : Type} (step : StepFn ε) (fuel N : Nat)
    (a0 : Agent) (req : Option String)
    (hstate : a0.state = AgentState.IDLE) (hcs : a0.current_step = 0)
    (hN : a0.max_steps = N) (hfuel : N ≤ fuel)
    (hok : ∀ a, ∃ a2 r, step a = .ok (a2, r))
    (hnb : ∀ a a2 r, step a = .ok (a2, r) →
      a2.state ≠ AgentState.BLOCKED ∧ a2.state ≠ AgentState.FINISHED)
    (hctr : ∀ a a2 r, step a = .ok (a2, r) →
      a2.current_step = a.current_step ∧ a2.max_steps = a.max_steps) :
    ∃ res rs, run step fuel a0 req = some res ∧
      res.outcome = .ok (String.intercalate "\n"
        (rs ++ ["Terminated: Reached max steps (" ++ toString N ++ ")"])) ∧
      rs.length = N ∧
      (∀ i, i < N → ∃ r, rs.get? i = some ("Step " ++ toString (i + 1) ++ ": " ++ r)) ∧
      res.agent.state = AgentState.IDLE ∧
      res.agent.current_step = 0 := by
  obtain ⟨hp1, hp2s, hp2c, hp2m, hp3⟩ := runPre_idle a0 req hstate
  obtain ⟨a4, rs2, hloop, h4m, h4c, h4B, hlen, hidx⟩ :=
    stepLoop_no_block step hok hnb hctr fuel (runPre a0 req).2.1 []
      (by rw [hp2s]; intro hc; cases hc)
      (by rw [hp2s]; intro hc; cases hc)
      (by rw [hp2m, hp2c, hN, hcs]; omega)
  have h4c2 : a4.current_step = N := by
    rw [h4c, hp2c, hp2m, hcs, hN]
    simp
  have h4m2 : a4.max_steps = N := by
    rw [h4m, hp2m, hN]
  have hbody : runBody step fuel (runPre a0 req).2.1 (runPre a0 req).2.2 =
      some (.ok ({ a4 with current_step := 0, state := AgentState.IDLE },
        rs2 ++ ["Terminated: Reached max steps (" ++ toString N ++ ")"])) := by
    unfold runBody
    rw [hp3, hloop]
    dsimp only
    rw [if_pos ⟨by rw [h4c2, h4m2], h4B⟩]
    rw [h4m2]
    simp
  have hrun : run step fuel a0 req =
      some ⟨{ a4 with current_step := 0, state := AgentState.IDLE },
        .ok (joinResults (rs2 ++ ["Terminated: Reached max steps (" ++ toString N ++ ")"])),
        true⟩ := by
    unfold run
    rw [if_neg (by intro hcontra; exact hcontra.1 hstate)]
    dsimp only
    rw [hbody]
    dsimp only
    rw [hp1]
    rfl
  refine ⟨_, rs2, hrun, ?_, ?_, ?_, rfl, rfl⟩
  · have hne : (rs2 ++ ["Terminated: Reached max steps (" ++ toString N ++ ")"]).isEmpty
        = false := by
      simp
    show Except.ok (joinResults _) = _
    unfold joinResults
    rw [hne]
    simp
  · rw [hlen, hp2m, hp2c, hcs, hN]
    omega
  · intro i hi
    obtain ⟨r, hr⟩ := hidx i (by rw [hlen, hp2m, hp2c, hcs, hN]; omega)
    refine ⟨r, ?_⟩
    rw [hr, hp2c, hcs]
    have : 0 + i + 1 = i + 1 := by omega
    rw [this]

/-- Evaluation of C1 on a concrete two-step run: a step that only reports
"ok" exhausts a budget of 2 and the summary ends with the termination
record. -/
theorem run_max_steps_termination_witness :
    ∃ res rs, run stepRunning 2 (mkFresh 2) none = some res ∧
      res.outcome = .ok (String.intercalate "\n"
        (rs ++ ["Terminated: Reached max steps (" ++ toString 2 ++ ")"])) ∧
      rs.length = 2 ∧
      (∀ i, i < 2 → ∃ r, rs.get? i = some ("Step " ++ toString (i + 1) ++ ": " ++ r)) ∧
      res.agent.state = AgentState.IDLE ∧
      res.agent.current_step = 0 := by
  refine run_max_steps_termination stepRunning 2 2 (mkFresh 2) none rfl rfl rfl
    (by decide) ?_ ?_ ?_
  · intro a
    exact ⟨{ a with state := AgentState.RUNNING }, "ok", rfl⟩
  · intro a a2 r h
    simp only [stepRunning] at h
    injection h with hpair
    injection hpair with h1 h2
    subst h1
    constructor
    · intro hc
      cases hc
    · intro hc
      cases hc
  · intro a a2 r h
    simp only [stepRunning] at h
    injection h with hpair
    injection hpair with h1 h2
    subst h1
    exact ⟨rfl, rfl⟩

/-! ## C2: error handling inside the RUNNING context -/

/-- C2: a step fault propagates out of `run` as the very exception the
step raised, and the `state_context` `finally` overwrites the transient
`ERROR` assignment with the state held on entry to the context
(`(runPre a0 req).1`), so the state observed after `run` raises is that
prior state and never `ERROR`; the sandbox-cleanup line after the context
is skipped on this path. -/
theorem run_error_reverts {ε : Type} (step : StepFn ε) (fuel : Nat) (a0 : Agent)
    (req : Option String) (e : ε) :
    (∀ res e2, run step fuel a0 req = some res →
      res.outcome = .error (RunFault.stepFault e2) →
      res.agent.state = (runPre a0 req).1 ∧
      res.agent.state ≠ AgentState.ERROR ∧
      res.sandboxCleanup = false) ∧
    (a0.state = AgentState.IDLE → a0.current_step < a0.max_steps → 1 ≤ fuel →
      ∃ ae, run (fun a => Except.error (a, e)) fuel a0 req =
        some (RunResult.mk (setState (setState ae AgentState.ERROR) AgentState.IDLE)
          (.error (RunFault.stepFault e)) false)) := by
  constructor
  · intro res e2 hrun houtcome
    unfold run at hrun
    by_cases hvalid : a0.state ≠ AgentState.IDLE ∧ a0.state ≠ AgentState.BLOCKED
    · rw [if_pos hvalid] at hrun
      injection hrun with hres
      rw [← hres] at houtcome
      exact absurd (Except.error.inj houtcome) (by intro hc; cases hc)
    · rw [if_neg hvalid] at hrun
      dsimp only at hrun
      have hor : a0.state = AgentState.IDLE ∨ a0.state = AgentState.BLOCKED := by
        by_cases h1 : a0.state = AgentState.IDLE
        · exact Or.inl h1
        · by_cases h2 : a0.state = AgentState.BLOCKED
          · exact Or.inr h2
          · exact absurd ⟨h1, h2⟩ hvalid
      cases hb : runBody step fuel (runPre a0 req).2.1 (runPre a0 req).2.2 with
      | none =>
        rw [hb] at hrun
        exact Option.noConfusion hrun
      | some exc =>
        cases exc with
        | error pe =>
          obtain ⟨ae, ee⟩ := pe
          rw [hb] at hrun
          dsimp only at hrun
          injection hrun with hres
          rw [← hres] at houtcome ⊢
          refine ⟨rfl, ?_, rfl⟩
          exact runPre_fst_ne_error a0 req hor
        | ok pr =>
          obtain ⟨a4, rs⟩ := pr
          rw [hb] at hrun
          dsimp only at hrun
          injection hrun with hres
          rw [← hres] at houtcome
          exact Except.noConfusion houtcome
  · intro hstate hlt hf
    obtain ⟨f, rfl⟩ : ∃ f, fuel = f + 1 := ⟨fuel - 1, by omega⟩
    obtain ⟨hp1, hp2s, hp2c, hp2m, hp3⟩ := runPre_idle a0 req hstate
    have hcond : loopCond (runPre a0 req).2.1 = true := by
      simp [loopCond, hp2s, hp2c, hp2m, hlt]
    have hloop : stepLoop (fun a => Except.error (a, e)) (f + 1) (runPre a0 req).2.1 [] =
        some (.error ({ (runPre a0 req).2.1 with
          current_step := (runPre a0 req).2.1.current_step + 1 }, e)) := by
      conv_lhs => unfold stepLoop
      rw [if_pos hcond]
    have hbody : runBody (fun a => Except.error (a, e)) (f + 1)
        (runPre a0 req).2.1 (runPre a0 req).2.2 =
        some (.error ({ (runPre a0 req).2.1 with
          current_step := (runPre a0 req).2.1.current_step + 1 }, e)) := by
      unfold runBody
      rw [hp3, hloop]
    refine ⟨{ (runPre a0 req).2.1 with
      current_step := (runPre a0 req).2.1.current_step + 1 }, ?_⟩
    unfold run
    rw [if_neg (by intro hcontra; exact hcontra.1 hstate)]
    dsimp only
    rw [hbody]
    dsimp only
    rw [hp1]
    rfl

/-- Evaluation of C2: a fresh agent whose step raises immediately; the
exception surfaces as the propagated fault and the agent is observed back
in `IDLE`. -/
theorem run_error_reverts_witness :
    ∃ ae, run (fun a => Except.error (a, ())) 3 (mkFresh 3) none =
      some (RunResult.mk (setState (setState ae AgentState.ERROR) AgentState.IDLE)
        (.error (RunFault.stepFault ())) false) :=
  (run_error_reverts stepRaising 3 (mkFresh 3) none ()).2 rfl (by decide) (by decide)

/-! ## C5: a blocked step never leaves the agent in BLOCKED after run -/

/-- C5: the `finally` of the RUNNING context assigns the state back to the
value captured on entry, so `run` never returns an agent in `BLOCKED`: a
fresh run ends in `IDLE`, a resume-from-BLOCKED run ends in `RUNNING`, and
on a loop exit the block fields (`block_reason`, `user_input_required`)
keep exactly the values the loop-exit agent (in particular a blocking
step) set. -/
theorem run_never_returns_blocked {ε : Type} (step : StepFn ε) (fuel : Nat)
    (a0 : Agent) (req : Option String) :
    (∀ res, run step fuel a0 req = some res →
      res.agent.state ≠ AgentState.BLOCKED) ∧
    (a0.state = AgentState.IDLE → ∀ res, run step fuel a0 req = some res →
      res.agent.state = AgentState.IDLE) ∧
    (a0.state = AgentState.BLOCKED → ∀ res, run step fuel a0 req = some res →
      res.agent.state = AgentState.RUNNING) ∧
    (∀ a4 rs, runBody step fuel (runPre a0 req).2.1 (runPre a0 req).2.2 =
        some (.ok (a4, rs)) →
      ¬(a0.state ≠ AgentState.IDLE ∧ a0.state ≠ AgentState.BLOCKED) →
      ∃ res, run step fuel a0 req = some res ∧
        res.agent = { a4 with state := (runPre a0 req).1 } ∧
        res.agent.block_reason = a4.block_reason ∧
        res.agent.user_input_required = a4.user_input_required ∧
        res.outcome = .ok (joinResults rs)) := by
  have hmain : ∀ res, run step fuel a0 req = some res →
      (res.agent = a0 ∧ a0.state ≠ AgentState.BLOCKED) ∨
      res.agent.state = (runPre a0 req).1 := by
    intro res hrun
    unfold run at hrun
    by_cases hvalid : a0.state ≠ AgentState.IDLE ∧ a0.state ≠ AgentState.BLOCKED
    · rw [if_pos hvalid] at hrun
      injection hrun with hres
      exact Or.inl ⟨hres.symm ▸ rfl, hvalid.2⟩
    · rw [if_neg hvalid] at hrun
      dsimp only at hrun
      cases hb : runBody step fuel (runPre a0 req).2.1 (runPre a0 req).2.2 with
      | none =>
        rw [hb] at hrun
        exact Option.noConfusion hrun
      | some exc =>
        cases exc with
        | error pe =>
          obtain ⟨ae, ee⟩ := pe
          rw [hb] at hrun
          dsimp only at hrun
          injection hrun with hres
          rw [← hres]
          exact Or.inr rfl
        | ok pr =>
          obtain ⟨a4, rs⟩ := pr
          rw [hb] at hrun
          dsimp only at hrun
          injection hrun with hres
          rw [← hres]
          exact Or.inr rfl
  refine ⟨?_, ?_, ?_, ?_⟩
  · intro res hrun
    cases hmain res hrun with
    | inl h =>
      rw [h.1]
      exact h.2
    | inr h =>
      rw [h]
      exact runPre_fst_ne_blocked a0 req
  · intro hstate res hrun
    cases hmain res hrun with
    | inl h =>
      rw [h.1]
      exact hstate
    | inr h =>
      rw [h, (runPre_idle a0 req hstate).1]
  · intro hstate res hrun
    cases hmain res hrun with
    | inl h => exact absurd hstate h.2
    | inr h =>
      rw [h, (runPre_blocked a0 req hstate).1]
  · intro a4 rs hb hvalid
    refine ⟨⟨{ a4 with state := (runPre a0 req).1 }, .ok (joinResults rs),
      !({ a4 with state := (runPre a0 req).1 }.state = AgentState.BLOCKED : Bool)⟩,
      ?_, rfl, rfl, rfl, rfl⟩
    unfold run
    rw [if_neg hvalid]
    dsimp only
    rw [hb]

/-- Evaluation of C5: a fresh run whose first step blocks returns with the
agent back in `IDLE` (not `BLOCKED`). -/
theorem run_never_returns_blocked_witness :
    ∃ res, run stepBlocking 3 (mkFresh 3) (some "hi") = some res ∧
      res.agent.state = AgentState.IDLE ∧
      res.agent.state ≠ AgentState.BLOCKED := by
  have h := run_never_returns_blocked stepBlocking 3 (mkFresh 3) (some "hi")
  refine ⟨_, rfl, h.2.1 rfl _ rfl, h.1 _ rfl⟩

/-! ## C3: the block_reason/BLOCKED invariant across run -/

/-- C3 (failing-input evaluation): a fresh agent whose step blocks with
reason "need info"; after `run` returns, the state has been reverted to
`IDLE` by the `state_context` `finally`, yet `block_reason` is still set —
`block_reason` is non-null while the state is not `BLOCKED`, violating the
claimed invariant at a point observable outside any operation. -/
theorem blocked_run_breaks_reason_invariant :
    ∃ res, run stepBlocking 5 (mkFresh 5) (some "hi") = some res ∧
      res.agent.block_reason = some "need info" ∧
      res.agent.state = AgentState.IDLE ∧
      res.agent.state ≠ AgentState.BLOCKED ∧
      res.agent.user_input_required = true := by
  refine ⟨_, rfl, rfl, rfl, ?_, rfl⟩
  intro hc
  cases hc

/-! ## C4: resource cleanup versus the BLOCKED state -/

/-- C4 (failing-input evaluation): when a step blocks, the `finally` of
`state_context` has already reverted `self.state` to `IDLE` before
`BaseAgent.run` reaches its `if self.state != BLOCKED` check, so
`SANDBOX_CLIENT.cleanup()` runs even though the loop exited because of a
block; `MCPAgent.run` additionally invokes its own `cleanup()`
unconditionally in a `finally`.  Conversely, on a step fault the exception
propagates before the check, so the base sandbox cleanup is skipped on
that (non-blocked) exit. -/
theorem cleanup_runs_despite_blocked_exit :
    (∃ res, run stepBlocking 4 (mkFresh 4) (some "go") = some res ∧
      res.sandboxCleanup = true ∧
      res.outcome = .ok "Step 1: ask\nBlocked: need info\nWaiting for user input to continue") ∧
    (∃ p, mcpRun stepBlocking 4 (mkFresh 4) (some "go") = some p ∧ p.2 = true) ∧
    (∃ res, run stepRaising 4 (mkFresh 4) none = some res ∧
      res.sandboxCleanup = false ∧
      res.outcome = .error (RunFault.stepFault ())) := by
  refine ⟨⟨_, rfl, rfl, rfl⟩, ⟨_, rfl, rfl⟩, ⟨_, rfl, rfl, rfl⟩⟩

/-! ## C6: tool federation routing -/

theorem mem_update_tool_map (x : String) (clients : List (String × MCPClientModel)) :
    x ∈ update_tool_map clients ↔
      ∃ p, p ∈ clients ∧ p.2.session = true ∧
        ∃ t, t ∈ p.2.tool_map ∧ x = p.1 ++ "." ++ t := by
  have haux : ∀ (cs : List (String × MCPClientModel)) (acc : List String),
      (x ∈ cs.foldl
        (fun acc p =>
          if p.2.session then acc ++ p.2.tool_map.map (fun t => p.1 ++ "." ++ t)
          else acc) acc) ↔
      (x ∈ acc ∨ ∃ p, p ∈ cs ∧ p.2.session = true ∧
        ∃ t, t ∈ p.2.tool_map ∧ x = p.1 ++ "." ++ t) := by
    intro cs
    induction cs with
    | nil =>
      intro acc
      simp
    | cons q rest ih =>
      intro acc
      rw [List.foldl_cons, ih]
      by_cases hs : q.2.session = true
      · rw [if_pos hs]
        constructor
        · rintro (hacc | ⟨p, hp, hps, t, ht, hx⟩)
          · rcases List.mem_append.mp hacc with h1 | h2
            · exact Or.inl h1
            · rcases List.mem_map.mp h2 with ⟨t, ht, hx⟩
              exact Or.inr ⟨q, List.mem_cons_self _ _, hs, t, ht, hx.symm⟩
          · exact Or.inr ⟨p, List.mem_cons_of_mem _ hp, hps, t, ht, hx⟩
        · rintro (hacc | ⟨p, hp, hps, t, ht, hx⟩)
          · exact Or.inl (List.mem_append.mpr (Or.inl hacc))
          · rcases List.mem_cons.mp hp with rfl | hp2
            · exact Or.inl (List.mem_append.mpr (Or.inr (List.mem_map.mpr ⟨t, ht, hx.symm⟩)))
            · exact Or.inr ⟨p, hp2, hps, t, ht, hx⟩
      · rw [if_neg hs]
        constructor
        · rintro (hacc | ⟨p, hp, hps, t, ht, hx⟩)
          · exact Or.inl hacc
          · exact Or.inr ⟨p, List.mem_cons_of_mem _ hp, hps, t, ht, hx⟩
        · rintro (hacc | ⟨p, hp, hps, t, ht, hx⟩)
          · exact Or.inl hacc
          · rcases List.mem_cons.mp hp with rfl | hp2
            · exact absurd hps hs
            · exact Or.inr ⟨p, hp2, hps, t, ht, hx⟩
  rw [update_tool_map, haux]
  simp

theorem data_append_dot (n t : String) : (n ++ "." ++ t).data = n.data ++ '.' :: t.data := by
  have h1 : (n ++ "." ++ t).data = n.data ++ ("." : String).data ++ t.data := by
    simp
  rw [h1]
  simp

theorem splitFirstDot_prefixed (n t : String) (hn : n.data.contains '.' = false) :
    splitFirstDot (n ++ "." ++ t) = (n, t) := by
  have hall : ∀ c ∈ n.data, (fun c => decide (c ≠ '.')) c = true := by
    intro c hc
    simp only [decide_eq_true_eq]
    intro hdot
    subst hdot
    simp at hn
    exact hn hc
  unfold splitFirstDot
  rw [data_append_dot]
  rw [takeWhile_append_all _ _ _ hall, dropWhile_append_all _ _ _ hall]
  have htw : List.takeWhile (fun c => decide (c ≠ '.')) ('.' :: t.data) = [] := by
    simp [List.takeWhile_cons]
  have hdw : List.dropWhile (fun c => decide (c ≠ '.')) ('.' :: t.data) = '.' :: t.data := by
    simp [List.dropWhile_cons]
  rw [htw, hdw]
  simp [asString_data]

/-- C6: `execute_tool` resolution order — a dotted name whose prefix is a
registered client is dispatched to that client with the remainder as local
name, regardless of that client's local tool set; otherwise the first
client in registration order whose local tool set contains the name
receives the call; when neither applies (with the flattened map in its
rebuilt state and dot-free client names) the result is the "Tool not
found" error value; and the spec's two concrete examples. -/
theorem execute_tool_resolution :
    (∀ (m : MultiMCP) (name : String),
      name.data.contains '.' = true →
      (m.clients.lookup (splitFirstDot name).1).isSome = true →
      execute_tool m name =
        ExecOutcome.dispatched (splitFirstDot name).1 (splitFirstDot name).2) ∧
    (∀ (m : MultiMCP) (name : String) (p : String × MCPClientModel),
      (name.data.contains '.' = false ∨
        m.clients.lookup (splitFirstDot name).1 = none) →
      m.clients.find? (fun q => q.2.tool_map.contains name) = some p →
      execute_tool m name = ExecOutcome.dispatched p.1 name) ∧
    (∀ (m : MultiMCP) (name : String),
      m.tool_map = update_tool_map m.clients →
      (∀ q ∈ m.clients, q.1.data.contains '.' = false) →
      (name.data.contains '.' = false ∨
        m.clients.lookup (splitFirstDot name).1 = none) →
      m.clients.find? (fun q => q.2.tool_map.contains name) = none →
      execute_tool m name = ExecOutcome.notFound ("Tool not found: " ++ name)) ∧
    execute_tool webDocs "web.search" = ExecOutcome.dispatched "web" "search" ∧
    execute_tool webDocs "search" = ExecOutcome.dispatched "web" "search" := by
  refine ⟨?_, ?_, ?_, by decide, by decide⟩
  · intro m name hdot hlook
    unfold execute_tool
    rw [if_pos hdot]
    dsimp only
    rw [if_pos hlook]
  · intro m name p hcase hfind
    unfold execute_tool
    dsimp only
    by_cases hd : name.data.contains '.' = true
    · rcases hcase with hc1 | hc2
      · rw [hd] at hc1
        cases hc1
      · rw [if_pos hd]
        have hns : ¬(m.clients.lookup (splitFirstDot name).1).isSome = true := by
          rw [hc2]
          intro hc
          cases hc
        rw [if_neg hns]
        rw [hfind]
    · have hnd : ¬(name.data.contains '.' = true) := hd
      rw [if_neg hnd]
      rw [hfind]
  · intro m name hmap hnodot hcase hfind
    have hnotin : ¬(m.tool_map.contains name = true) := by
      intro hc
      have hmem : name ∈ m.tool_map := by
        simpa using hc
      rw [hmap, mem_update_tool_map] at hmem
      obtain ⟨p, hp, hps, t, ht, hx⟩ := hmem
      have hsplit : splitFirstDot name = (p.1, t) := by
        rw [hx]
        exact splitFirstDot_prefixed p.1 t (hnodot p hp)
      have hd : name.data.contains '.' = true := by
        rw [hx, data_append_dot]
        simp
      have hlook : (m.clients.lookup (splitFirstDot name).1).isSome = true := by
        rw [hsplit]
        rw [lookup_isSome_iff]
        exact List.mem_map.mpr ⟨p, hp, rfl⟩
      rcases hcase with hc1 | hc2
      · rw [hd] at hc1
        cases hc1
      · rw [hc2] at hlook
        cases hlook
    unfold execute_tool
    dsimp only
    by_cases hd : name.data.contains '.' = true
    · rcases hcase with hc1 | hc2
      · rw [hd] at hc1
        cases hc1
      · rw [if_pos hd]
        have hns : ¬(m.clients.lookup (splitFirstDot name).1).isSome = true := by
          rw [hc2]
          intro hc
          cases hc
        rw [if_neg hns]
        rw [hfind, if_neg hnotin]
    · rw [if_neg hd]
      rw [hfind, if_neg hnotin]

/-- Evaluation of C6: a name no link knows is answered with the
"Tool not found" result value. -/
theorem execute_tool_resolution_witness :
    execute_tool webDocs "missing" = ExecOutcome.notFound ("Tool not found: " ++ "missing") :=
  execute_tool_resolution.2.2.1 webDocs "missing" rfl (by decide)
    (Or.inl (by decide)) (by decide)

/-! ## C7: addLink failure modes -/

/-- C7 (counterexample to the claim as stated): registering a client under
an id that is already registered does not fail — `add_client` succeeds and
replaces the existing registration in place, rebuilding the namespace. -/
theorem add_client_duplicate_id_succeeds :
    add_client webOnly "web" "sse" (some "http://h") none crawlClient =
      .ok ⟨[("web", crawlClient)], ["web.crawl"]⟩ := by
  rfl

/-- C7 (amended): `add_client` raises a `ValueError` — leaving the
registry untouched, since validation precedes both the connect call and
the registration — exactly when the required transport parameter for the
chosen kind is falsy (`server_url` for "sse", `command` for "stdio") or
the kind is unsupported; with a valid parameter it succeeds even for an
already-registered id, replacing that registration in place and rebuilding
the flattened namespace. -/
theorem add_client_failure_modes (m : MultiMCP) (name : String)
    (server_url command : Option String) (client : MCPClientModel) :
    (falsyStr server_url = true →
      add_client m name "sse" server_url command client =
        .error ("Server URL is required for SSE connection: " ++ name)) ∧
    (falsyStr command = true →
      add_client m name "stdio" server_url command client =
        .error ("Command is required for stdio connection: " ++ name)) ∧
    (∀ ct, ct ≠ "sse" → ct ≠ "stdio" →
      add_client m name ct server_url command client =
        .error ("Unsupported connection type: " ++ ct)) ∧
    (falsyStr server_url = false →
      add_client m name "sse" server_url command client =
        .ok ⟨dictInsert m.clients name client,
          update_tool_map (dictInsert m.clients name client)⟩) ∧
    (falsyStr command = false →
      add_client m name "stdio" server_url command client =
        .ok ⟨dictInsert m.clients name client,
          update_tool_map (dictInsert m.clients name client)⟩) := by
  refine ⟨?_, ?_, ?_, ?_, ?_⟩
  · intro h
    unfold add_client
    rw [if_pos rfl, if_pos h]
  · intro h
    unfold add_client
    rw [if_neg (by decide : ¬("stdio" : String) = "sse"), if_pos rfl, if_pos h]
  · intro ct h1 h2
    unfold add_client
    rw [if_neg h1, if_neg h2]
  · intro h
    unfold add_client
    rw [if_pos rfl, if_neg (by rw [h]; intro hc; cases hc)]
  · intro h
    unfold add_client
    rw [if_neg (by decide : ¬("stdio" : String) = "sse"), if_pos rfl,
      if_neg (by rw [h]; intro hc; cases hc)]

/-- Evaluation of C7 (amended): missing `server_url` on an sse link fails
with the ValueError message and without touching the registry. -/
theorem add_client_failure_modes_witness :
    add_client webOnly "fire" "sse" none none crawlClient =
      .error ("Server URL is required for SSE connection: " ++ "fire") :=
  (add_client_failure_modes webOnly "fire" none none crawlClient).1 rfl

/-! ## C8: schema reconciliation -/

theorem buildDict_eq_self (live : List (String × String))
    (h : (live.map Prod.fst).Nodup) : buildDict live = live := by
  have haux : ∀ (l : List (String × String)) (acc : List (String × String)),
      (∀ k ∈ l.map Prod.fst, k ∉ acc.map Prod.fst) →
      (l.map Prod.fst).Nodup →
      l.foldl (fun d p => dictInsert d p.1 p.2) acc = acc ++ l := by
    intro l
    induction l with
    | nil =>
      intro acc _ _
      simp
    | cons q rest ih =>
      intro acc hdisj hnd
      rw [List.foldl_cons]
      have hqnot : q.1 ∉ acc.map Prod.fst := hdisj q.1 (by simp)
      have hins : dictInsert acc q.1 q.2 = acc ++ [(q.1, q.2)] := by
        unfold dictInsert
        rw [if_neg (by
          intro hc
          exact hqnot ((lookup_isSome_iff q.1 acc).mp hc))]
      rw [hins]
      rw [ih (acc ++ [(q.1, q.2)]) ?_ ?_]
      · simp
      · intro k hk
        simp only [List.map_append, List.mem_append]
        rintro (h1 | h2)
        · exact hdisj k (by simp [hk]) h1
        · simp at h2
          rw [List.map_cons, List.nodup_cons] at hnd
          exact hnd.1 (h2 ▸ hk)
      · rw [List.map_cons, List.nodup_cons] at hnd
        exact hnd.2
  unfold buildDict
  rw [haux live [] (by simp) h]
  simp

/-- C8: one reconciliation pass over a connected session computes
`added`, `removed` and `changed` as the spec's set operations on the key
sets of the live and cached maps, replaces the cache wholesale with the
live map, and appends the "New tools available"/"Tools no longer
available" system messages exactly when the respective list is non-empty;
the spec's concrete example evaluates accordingly. -/
theorem refresh_tools_diff (live cache : List (String × String)) (mem : List Message)
    (hl : (live.map Prod.fst).Nodup) :
    (∀ n, n ∈ (refresh_tools true live cache mem).added ↔
      (n ∈ live.map Prod.fst ∧ n ∉ cache.map Prod.fst)) ∧
    (∀ n, n ∈ (refresh_tools true live cache mem).removed ↔
      (n ∈ cache.map Prod.fst ∧ n ∉ live.map Prod.fst)) ∧
    (∀ n, n ∈ (refresh_tools true live cache mem).changed ↔
      (n ∈ live.map Prod.fst ∧ n ∈ cache.map Prod.fst ∧
        live.lookup n ≠ cache.lookup n)) ∧
    (refresh_tools true live cache mem).tool_schemas = live ∧
    (refresh_tools true live cache mem).messages =
      mem ++
        (if (refresh_tools true live cache mem).added.isEmpty = true then []
         else [⟨Role.system, "New tools available: " ++
           String.intercalate ", " (refresh_tools true live cache mem).added⟩]) ++
        (if (refresh_tools true live cache mem).removed.isEmpty = true then []
         else [⟨Role.system, "Tools no longer available: " ++
           String.intercalate ", " (refresh_tools true live cache mem).removed⟩]) ∧
    refresh_tools true [("a", "s1"), ("c", "s3")] [("a", "s1"), ("b", "s2")] [] =
      ⟨["c"], ["b"], [], [("a", "s1"), ("c", "s3")],
       [⟨Role.system, "New tools available: c"⟩,
        ⟨Role.system, "Tools no longer available: b"⟩]⟩ := by
  have hbd : buildDict live = live := buildDict_eq_self live hl
  have heq : refresh_tools true live cache mem =
      ⟨(live.map Prod.fst).filter (fun n => !(cache.map Prod.fst).contains n),
       (cache.map Prod.fst).filter (fun n => !(live.map Prod.fst).contains n),
       (live.map Prod.fst).filter (fun n =>
         (cache.map Prod.fst).contains n &&
           !decide (live.lookup n = cache.lookup n)),
       live,
       (if ((live.map Prod.fst).filter
             (fun n => !(cache.map Prod.fst).contains n)).isEmpty then mem
        else add_message mem ⟨Role.system, "New tools available: " ++
          String.intercalate ", " ((live.map Prod.fst).filter
            (fun n => !(cache.map Prod.fst).contains n))⟩) ++
       (if ((cache.map Prod.fst).filter
             (fun n => !(live.map Prod.fst).contains n)).isEmpty then []
        else [⟨Role.system, "Tools no longer available: " ++
          String.intercalate ", " ((cache.map Prod.fst).filter
            (fun n => !(live.map Prod.fst).contains n))⟩])⟩ := by
    unfold refresh_tools
    rw [hbd]
    dsimp only
    by_cases hrem : ((cache.map Prod.fst).filter
        (fun n => !(live.map Prod.fst).contains n)).isEmpty = true
    · rw [if_pos hrem, if_pos hrem]
      simp
    · rw [if_neg hrem, if_neg hrem]
      simp [add_message]
  rw [heq]
  dsimp only
  refine ⟨?_, ?_, ?_, rfl, ?_, by decide⟩
  · intro n
    simp
  · intro n
    simp
  · intro n
    simp [and_assoc]
  · by_cases hadd : ((live.map Prod.fst).filter
        (fun n => !(cache.map Prod.fst).contains n)).isEmpty = true
    · rw [if_pos hadd, if_pos hadd]
      simp
    · rw [if_neg hadd, if_neg hadd]
      simp [add_message, List.append_assoc]

/-- Evaluation of C8 at a one-entry live map against an empty cache. -/
theorem refresh_tools_diff_witness :
    (refresh_tools true [("x", "s")] [] []).tool_schemas = [("x", "s")] :=
  (refresh_tools_diff [("x", "s")] [] [] (by decide)).2.2.2.1

/-! ## C9: the blocking classifier's boolean is hard-wired to false -/

/-- C9: every return path of `_needs_user_input` yields `False` as the
boolean — for arbitrary pattern matchers and arbitrary messages — and on
the message "请提供您的姓名？" (with the matchers translated from the
source's pattern lists) the accompanying proposed block-reason string is
the non-empty flagged sentence itself; only the reason string ever varies
with the input. -/
theorem needs_user_input_bool_always_false :
    (∀ (instr quest rhet : String → Bool) (message : String),
      (needs_user_input instr quest rhet message).1 = false) ∧
    needs_user_input has_instruction has_question_pattern is_rhetorical
      "请提供您的姓名？" = (false, "请提供您的姓名？") := by
  constructor
  · intro instr quest rhet message
    simp only [needs_user_input]
    repeat' split
    all_goals rfl
  · rfl

end ScholarManus
